import Mathlib

/-!
# Verification of the pitch-change server core (`src/server.py`)

This file gives a shallow embedding of the parts of `server.py` that the
frozen claims are about, and proves or refutes each claim against it.

Conventions of the embedding:

* Python `str` values that stand for file-system paths appear either as their
  list of Unicode code points (`List Nat`, for the identity codec, where the
  byte-level round trip is the whole point) or as plain `String`s (for file
  names glued together by the artifact-path helpers).
* Python `bytes` values are `List Nat` with every element `< 256`.
* The on-disk artifact namespace is an association list from artifact paths
  to file contents; "the file exists" is `fsLookup … ≠ none`, mirroring the
  code's use of `Path.exists()` as the cache-hit signal.
* External tools (`ffmpeg`, `sox`) are not executed; each adapter function
  returns, besides its effect on the store, the number of external tool
  invocations it performed, and a `Bool` parameter stands for the tool's
  exit status (`true` = exit code 0).  On failure the Python code raises
  `RuntimeError`, embedded as `Except.error`.
* Durations (`ffprobe`, `wave`) are elided: no frozen claim mentions them.
-/

/-! ## Artifact store (`temp/audio`, `temp/pitch`, `temp/thumbs`, `~/Downloads`) -/

/-- The four directories artifacts are written to (`AUDIO_DIR`, `PITCH_DIR`,
`THUMBS_DIR`, `DOWNLOADS_DIR` in `server.py`). -/
inductive ArtifactDir
  | audio
  | pitch
  | thumbs
  | downloads
deriving DecidableEq, Repr

/-- An on-disk location: a directory plus a file name, mirroring
`AUDIO_DIR / f"{file_id}.wav"` and friends. -/
structure ArtPath where
  dir : ArtifactDir
  name : String
deriving DecidableEq, Repr

/-- File contents, tagged by which external tool produced them and from what
inputs.  This stands for the opaque bytes the tools write. -/
inductive Content
  | wav (video : String)
  | pitched (inputWav : ArtPath) (cents : Int)
  | muxed (video : String) (audioWav : ArtPath)
deriving DecidableEq, Repr

/-- The durable store: newest write first, lookup returns the newest entry,
so prepending models an overwriting write. -/
abbrev FS := List (ArtPath × Content)

/-- Presence test, mirroring `Path.exists()` plus reading the file. -/
def fsLookup : FS → ArtPath → Option Content
  | [], _ => none
  | (q, c) :: rest, p => if q = p then some c else fsLookup rest p

/-- A write to the store.  `ffmpeg -y` and fresh `sox` outputs both land
here; the newest entry shadows any older one at the same path. -/
def fsWrite (fs : FS) (p : ArtPath) (c : Content) : FS :=
  (p, c) :: fs

/-! ## Artifact naming (`audio_base_path_for_id`, `pitched_audio_path_for_id`) -/

/-- Embeds `audio_base_path_for_id`: `AUDIO_DIR / f"{file_id}.wav"`. -/
def audio_base_path_for_id (file_id : String) : ArtPath :=
  ⟨ArtifactDir.audio, file_id ++ ".wav"⟩

/-- Embeds `pitched_audio_path_for_id`:
`sign = "+" if semitones >= 0 else "-"`,
`PITCH_DIR / f"{file_id}_{sign}{abs(int(semitones))}.wav"`. -/
def pitched_audio_path_for_id (file_id : String) (semitones : Int) : ArtPath :=
  let sign : String := if 0 ≤ semitones then "+" else "-"
  let n : Nat := semitones.natAbs
  ⟨ArtifactDir.pitch, file_id ++ "_" ++ sign ++ toString n ++ ".wav"⟩

/-! ## External tool adapter (`extract_audio_wav`, `sox_pitch_shift_wav`,
`mux_video_with_audio`)

Each returns `(result, number of external tool invocations)`. -/

/-- Embeds `extract_audio_wav`: `if audio_out.exists(): return` then run
`ffmpeg`; raise `RuntimeError` on non-zero exit. -/
def extract_audio_wav (ffmpegOk : Bool) (fs : FS) (video_path : String)
    (audio_out : ArtPath) : Except String FS × Nat :=
  if (fsLookup fs audio_out).isSome then (Except.ok fs, 0)
  else if ffmpegOk then (Except.ok (fsWrite fs audio_out (Content.wav video_path)), 1)
  else (Except.error "ffmpeg failed to extract audio", 1)

/-- Embeds `sox_pitch_shift_wav`: `if output_wav.exists(): return`, then
`cents = int(semitones) * 100` and run `sox`; raise on non-zero exit. -/
def sox_pitch_shift_wav (soxOk : Bool) (fs : FS) (input_wav output_wav : ArtPath)
    (semitones : Int) : Except String FS × Nat :=
  if (fsLookup fs output_wav).isSome then (Except.ok fs, 0)
  else
    let cents : Int := semitones * 100
    if soxOk then (Except.ok (fsWrite fs output_wav (Content.pitched input_wav cents)), 1)
    else (Except.error "SoX failed to pitch shift", 1)

/-- Embeds `mux_video_with_audio`: note there is no existence check — the
function always invokes `ffmpeg -y`, which overwrites `output_path`. -/
def mux_video_with_audio (ffmpegOk : Bool) (fs : FS) (video_path : String)
    (audio_wav : ArtPath) (output_path : ArtPath) : Except String FS × Nat :=
  if ffmpegOk then (Except.ok (fsWrite fs output_path (Content.muxed video_path audio_wav)), 1)
  else (Except.error "ffmpeg failed to mux", 1)

/-! ## Orchestrator endpoints (`/api/pitch`, `/api/store-video`, `/audio`) -/

/-- The error taxonomy of the JSON handlers; each constructor corresponds to
one `abort_json` message in `server.py`. -/
inductive ApiError
  | videoNotFound
  | semitonesOutOfRange
  | baseAudioMissing
  | audioNotAvailable
  | toolFailed (msg : String)
deriving DecidableEq, Repr

/-- The observable outcome of one handler call: HTTP status, error (if any),
how many external tool invocations happened, the store afterwards, the
`pitch` query parameter baked into a returned `audio_url` (if any), and the
returned `output_path` (if any). -/
structure ApiResult where
  status : Nat
  error : Option ApiError
  toolRuns : Nat
  fs : FS
  audioUrlPitch : Option Int
  outputPath : Option ArtPath
deriving DecidableEq, Repr

/-- Embeds `api_pitch` (the `id` field is assumed present and `semitones`
already an integer; the `Missing id` branch and Python-level `int()`
conversion are upstream of everything the claims state).  The handler checks
the semitone range, then that base audio exists, then ensures the pitched
artifact via `sox_pitch_shift_wav`, and returns
`url_for("serve_audio", id=file_id, pitch=semitones)`. -/
def api_pitch (soxOk : Bool) (fs : FS) (file_id : String) (semitones : Int) : ApiResult :=
  if semitones < -8 ∨ 8 < semitones then
    ⟨400, some ApiError.semitonesOutOfRange, 0, fs, none, none⟩
  else
    let base_audio := audio_base_path_for_id file_id
    if (fsLookup fs base_audio).isNone then
      ⟨400, some ApiError.baseAudioMissing, 0, fs, none, none⟩
    else
      let out := pitched_audio_path_for_id file_id semitones
      match sox_pitch_shift_wav soxOk fs base_audio out semitones with
      | (Except.ok fs2, n) => ⟨200, none, n, fs2, some semitones, none⟩
      | (Except.error e, n) => ⟨500, some (ApiError.toolFailed e), n, fs, none, none⟩

/-- Embeds `api_store_video`.  `video` is the outcome of
`get_video_path_from_id_or_404`: `none` when the id does not resolve to an
existing file (the 4xx branch), otherwise `some (full path, stem)`. -/
def api_store_video (muxOk : Bool) (fs : FS) (video : Option (String × String))
    (file_id : String) (semitones : Int) : ApiResult :=
  match video with
  | none => ⟨404, some ApiError.videoNotFound, 0, fs, none, none⟩
  | some (video_path, stem) =>
    let audio_path :=
      if semitones ≠ 0 then pitched_audio_path_for_id file_id semitones
      else audio_base_path_for_id file_id
    if (fsLookup fs audio_path).isNone then
      ⟨400, some ApiError.audioNotAvailable, 0, fs, none, none⟩
    else
      let sign : String := if 0 ≤ semitones then "+" else "-"
      let n : Nat := semitones.natAbs
      let out_path : ArtPath := ⟨ArtifactDir.downloads, stem ++ "_" ++ sign ++ toString n ++ ".mp4"⟩
      match mux_video_with_audio muxOk fs video_path audio_path out_path with
      | (Except.ok fs2, k) => ⟨200, none, k, fs2, none, some out_path⟩
      | (Except.error e, k) => ⟨500, some (ApiError.toolFailed e), k, fs, none, none⟩

/-- Embeds the path resolution of `serve_audio`: `pitch == 0` streams the
base-audio artifact, anything else the pitched artifact for that value. -/
def serve_audio_resolved_path (file_id : String) (pitch : Int) : ArtPath :=
  if pitch = 0 then audio_base_path_for_id file_id
  else pitched_audio_path_for_id file_id pitch

/-- Embeds `serve_audio` up to the point where the resolved file is handed to
`send_file_range`: the streamed content, or `none` for the 404 branch. -/
def serve_audio (fs : FS) (file_id : String) (pitch : Int) : Option Content :=
  fsLookup fs (serve_audio_resolved_path file_id pitch)

/-! ## Interleaving model of two concurrent `ensure` calls

`sox_pitch_shift_wav` (and `extract_audio_wav`) consist of an unsynchronised
existence check followed by a producer run that writes the output; there is
no lock anywhere in `server.py`.  Two concurrent requests for the same key
are modelled as two tasks, each executing
step 0: `if output.exists()` (decide), step 1/2: run the producer and write,
or skip.  A schedule is the order in which the scheduler picks tasks. -/

/-- Joint state of the two tasks: whether the artifact file has been written,
each task's program counter (0 = before the existence check, 1 = checked and
saw the file absent, 2 = checked and saw it present, 3 = finished), and how
many producer (external tool) runs have happened. -/
structure EnsureSys where
  fileWritten : Bool
  pc1 : Nat
  pc2 : Nat
  runs : Nat
deriving DecidableEq, Repr

/-- One scheduler step: the picked task (`true` = task 1) executes its next
instruction of the check-then-produce pattern. -/
def ensureStep (s : EnsureSys) (first : Bool) : EnsureSys :=
  if first then
    if s.pc1 = 0 then { s with pc1 := if s.fileWritten then 2 else 1 }
    else if s.pc1 = 1 then { s with pc1 := 3, fileWritten := true, runs := s.runs + 1 }
    else if s.pc1 = 2 then { s with pc1 := 3 }
    else s
  else
    if s.pc2 = 0 then { s with pc2 := if s.fileWritten then 2 else 1 }
    else if s.pc2 = 1 then { s with pc2 := 3, fileWritten := true, runs := s.runs + 1 }
    else if s.pc2 = 2 then { s with pc2 := 3 }
    else s

/-- Initial state: artifact absent, both tasks at their existence check. -/
def ensureInit : EnsureSys := ⟨false, 0, 0, 0⟩

/-- Run a schedule from the initial state. -/
def runSchedule (sched : List Bool) : EnsureSys :=
  sched.foldl ensureStep ensureInit

/-! ## Range streaming responder (`send_file_range`)

The stored file is its list of bytes; the `Range` header, when present, is a
list of characters.  The response records the fields the claims talk about:
status, body, the `Content-Range` / `Content-Length` headers, and whether
`Accept-Ranges: bytes` and `Cache-Control: no-store` were set. -/

/-- The observable response of `send_file_range`. -/
structure HttpResponse where
  status : Nat
  body : List Nat
  contentRange : Option String
  contentLength : Option Int
  acceptRanges : Bool
  noStore : Bool
deriving DecidableEq, Repr

/-- Embeds the two `send_file(...)` fallback branches of `send_file_range`
(no `Range` header, or a malformed one): full body, status 200,
`Accept-Ranges: bytes`, `Cache-Control: no-store`. -/
def full_file_response (file : List Nat) : HttpResponse :=
  { status := 200
    body := file
    contentRange := none
    contentLength := some (file.length : Int)
    acceptRanges := true
    noStore := true }

/-- Split a character list at the first occurrence of `sep`;
`none` when `sep` does not occur. -/
def splitAtFirst (sep : Char) : List Char → Option (List Char × List Char)
  | [] => none
  | c :: rest =>
    if c = sep then some ([], rest)
    else
      match splitAtFirst sep rest with
      | some (a, b) => some (c :: a, b)
      | none => none

/-- Embeds Python `str.partition` for a one-character separator, dropping the
middle component: `"a=b".partition("=") == ("a", "=", "b")` and, when the
separator is absent, `("a", "", "")`. -/
def pyPartition (s : List Char) (sep : Char) : List Char × List Char :=
  match splitAtFirst sep s with
  | some (a, b) => (a, b)
  | none => (s, [])

/-- Whitespace stripped by Python `int(str)` (ASCII fragment). -/
def isPySpace (c : Char) : Bool :=
  c = ' ' ∨ c = '\t' ∨ c = '\n' ∨ c = '\r' ∨ c = Char.ofNat 11 ∨ c = Char.ofNat 12

/-- Strip leading and trailing whitespace, as `int(str)` does. -/
def pyStrip (cs : List Char) : List Char :=
  ((cs.dropWhile isPySpace).reverse.dropWhile isPySpace).reverse

/-- Decimal digit test. -/
def isDigitChar (c : Char) : Bool :=
  48 ≤ c.toNat ∧ c.toNat ≤ 57

/-- Numeric value of a decimal digit character. -/
def digitVal (c : Char) : Nat := c.toNat - 48

/-- Digit-string accumulator of Python `int(str)`: after a first digit,
accepts further digits with single underscores allowed between digits. -/
def digitsCore (acc : Nat) : List Char → Option Nat
  | [] => some acc
  | c :: rest =>
    if c = '_' then
      match rest with
      | c2 :: rest2 =>
        if isDigitChar c2 then digitsCore (acc * 10 + digitVal c2) rest2 else none
      | [] => none
    else if isDigitChar c then digitsCore (acc * 10 + digitVal c) rest
    else none

/-- An unsigned decimal literal as `int(str)` accepts it (ASCII digits,
optional single underscores between digits). -/
def pyNatDigits : List Char → Option Nat
  | [] => none
  | c :: rest => if isDigitChar c then digitsCore (digitVal c) rest else none

/-- Embeds Python `int(str)` on the ASCII fragment: optional surrounding
whitespace, optional sign, then a decimal literal; `none` models the
`ValueError` that sends `send_file_range` to its fallback branch. -/
def pyInt (cs : List Char) : Option Int :=
  match pyStrip cs with
  | [] => none
  | c :: rest =>
    if c = '+' then (pyNatDigits rest).map (fun n => (n : Int))
    else if c = '-' then (pyNatDigits rest).map (fun n => -(n : Int))
    else (pyNatDigits (c :: rest)).map (fun n => (n : Int))

/-- Embeds `f.seek(start)` followed by `f.read(length)`.  Python's
`BufferedReader.read` accepts a non-negative count or exactly `-1` (read to
end of file; seeking past end of file yields an empty read) and raises
`ValueError: read length must be non-negative or -1` for any count below
`-1`; `none` models that exception.  (The parsed `start` is never negative:
any `-` in the range spec is consumed as the separator, so the `start_s`
passed to `int` cannot carry a minus sign.) -/
def fileReadFrom (file : List Nat) (start length : Int) : Option (List Nat) :=
  if length < -1 then none
  else if length = -1 then some (file.drop start.toNat)
  else some ((file.drop start.toNat).take length.toNat)

/-- The read in `send_file_range` sits outside the `try` block, so the
`ValueError` from a read count below `-1` propagates out of the handler;
Flask turns the unhandled exception into a 500 Internal Server Error that
carries none of the range headers.  (Its error-page body is not modelled;
the empty body stands for "not the requested bytes".) -/
def internal_error_response : HttpResponse :=
  { status := 500
    body := []
    contentRange := none
    contentLength := none
    acceptRanges := false
    noStore := false }

/-- The `Content-Range` header value `f"bytes {start}-{end}/{file_size}"`. -/
def contentRangeHeader (a b total : Int) : String :=
  s!"bytes {a}-{b}/{total}"

/-- Embeds `send_file_range`.  The `try` block covers exactly the parsing:
a non-`bytes` unit or an unparsable bound falls back to the full response.
On the 206 path the end bound is clamped to `file_size - 1`, the length is
`end - start + 1`, and the headers are added as in the source. -/
def send_file_range (file : List Nat) (rangeHeader : Option (List Char)) : HttpResponse :=
  let file_size : Int := (file.length : Int)
  match rangeHeader with
  | none => full_file_response file
  | some h =>
    let p1 := pyPartition h '='
    if p1.1 ≠ "bytes".toList then full_file_response file
    else
      let p2 := pyPartition p1.2 '-'
      let start? : Option Int := if p2.1 = [] then some 0 else pyInt p2.1
      let end? : Option Int := if p2.2 = [] then some (file_size - 1) else pyInt p2.2
      match start? with
      | none => full_file_response file
      | some start =>
        match end? with
        | none => full_file_response file
        | some end0 =>
          let end1 := if file_size ≤ end0 then file_size - 1 else end0
          let length := end1 - start + 1
          match fileReadFrom file start length with
          | none => internal_error_response
          | some data =>
            { status := 206
              body := data
              contentRange := some (contentRangeHeader start end1 file_size)
              contentLength := some length
              acceptRanges := true
              noStore := true }

/-- Decimal digit characters, for rendering concrete `Range` headers. -/
def digitChar : Nat → Char
  | 0 => '0' | 1 => '1' | 2 => '2' | 3 => '3' | 4 => '4'
  | 5 => '5' | 6 => '6' | 7 => '7' | 8 => '8' | _ => '9'

/-- Fuelled digit renderer (structural recursion, so that concrete headers
evaluate by kernel reduction). -/
def natToDigitsAux (fuel : Nat) (n : Nat) : List Char :=
  match fuel with
  | 0 => []
  | fuel + 1 =>
    if n < 10 then [digitChar n]
    else natToDigitsAux fuel (n / 10) ++ [digitChar (n % 10)]

/-- Canonical decimal rendering of a natural number. -/
def natToDigits (n : Nat) : List Char :=
  natToDigitsAux (n + 1) n

/-- The header `bytes={s}-{e}` a well-formed range request carries. -/
def mkRangeHeader (s e : Nat) : List Char :=
  "bytes".toList ++ '=' :: (natToDigits s ++ '-' :: natToDigits e)

/-- The header `bytes={s}-` of an open-ended range request. -/
def mkOpenRangeHeader (s : Nat) : List Char :=
  "bytes".toList ++ '=' :: (natToDigits s ++ ['-'])

/-! ## Identity codec (`b64url_encode_path`, `b64url_decode_path`)

`b64url_encode_path` is `base64.urlsafe_b64encode(path.encode("utf-8"))`
with the `=` padding stripped; `b64url_decode_path` re-adds
`"=" * (-len(token) % 4)`, runs `base64.urlsafe_b64decode` (CPython's
non-strict `binascii.a2b_base64`, which *discards* characters outside the
alphabet and stops at a completed padding group), and decodes the bytes as
UTF-8.  Paths are lists of Unicode code points; bytes are `Nat < 256`. -/

/-- A Unicode scalar value, i.e. a code point a Python `str` holding a file
path can contain and `str.encode("utf-8")` accepts (no surrogates). -/
def isScalar (c : Nat) : Bool :=
  c < 0xD800 ∨ (0xE000 ≤ c ∧ c < 0x110000)

/-- UTF-8 encoding of one code point (the standard 1-4 byte forms). -/
def utf8EncodeChar (c : Nat) : List Nat :=
  if c < 0x80 then [c]
  else if c < 0x800 then [0xC0 + c / 64, 0x80 + c % 64]
  else if c < 0x10000 then [0xE0 + c / 4096, 0x80 + c / 64 % 64, 0x80 + c % 64]
  else [0xF0 + c / 262144, 0x80 + c / 4096 % 64, 0x80 + c / 64 % 64, 0x80 + c % 64]

/-- Embeds `path_str.encode("utf-8")`. -/
def utf8Encode : List Nat → List Nat
  | [] => []
  | c :: rest => utf8EncodeChar c ++ utf8Encode rest

/-- A UTF-8 continuation byte. -/
def isCont (b : Nat) : Bool :=
  0x80 ≤ b ∧ b < 0xC0

/-- Decode one UTF-8 sequence: given the first byte and the remaining bytes,
the code point and the bytes after the sequence, or `none` when invalid — a
stray continuation byte or `0xC0`/`0xC1` lead (`b0 < 0xC2` after the ASCII
test), a missing or malformed continuation byte, an overlong form, a
surrogate, a value above `0x10FFFF`, or a lead byte `0xF5`-`0xFF`. -/
def utf8DecodeOne (b0 : Nat) (rest : List Nat) : Option (Nat × List Nat) :=
  if b0 < 0x80 then some (b0, rest)
  else if b0 < 0xC2 then none
  else if b0 < 0xE0 then
    match rest with
    | b1 :: rest1 =>
      if isCont b1 then some ((b0 - 0xC0) * 64 + (b1 - 0x80), rest1) else none
    | [] => none
  else if b0 < 0xF0 then
    match rest with
    | b1 :: b2 :: rest2 =>
      if isCont b1 ∧ isCont b2 then
        let c := (b0 - 0xE0) * 4096 + (b1 - 0x80) * 64 + (b2 - 0x80)
        if c < 0x800 then none
        else if 0xD800 ≤ c ∧ c < 0xE000 then none
        else some (c, rest2)
      else none
    | _ => none
  else if b0 < 0xF5 then
    match rest with
    | b1 :: b2 :: b3 :: rest3 =>
      if isCont b1 ∧ isCont b2 ∧ isCont b3 then
        let c := (b0 - 0xF0) * 262144 + (b1 - 0x80) * 4096 + (b2 - 0x80) * 64 + (b3 - 0x80)
        if c < 0x10000 then none
        else if 0x110000 ≤ c then none
        else some (c, rest3)
      else none
    | _ => none
  else none

/-- Fuelled decoding loop; each step consumes at least one byte, so fuel
equal to the byte count always suffices. -/
def utf8DecodeAux : Nat → List Nat → Option (List Nat)
  | _, [] => some []
  | 0, _ :: _ => none
  | fuel + 1, b0 :: rest =>
    match utf8DecodeOne b0 rest with
    | none => none
    | some (c, rest2) => (utf8DecodeAux fuel rest2).map (fun l => c :: l)

/-- Embeds `raw.decode("utf-8")` (strict): decode sequences left to right,
failing on the first invalid one. -/
def utf8Decode (bs : List Nat) : Option (List Nat) :=
  utf8DecodeAux bs.length bs

/-- The URL-safe base64 alphabet (`+`, `/` replaced by `-`, `_`). -/
def urlsafe_alphabet : List Char :=
  "ABCDEFGHIJKLMNOPQRSTUVWXYZabcdefghijklmnopqrstuvwxyz0123456789-_".toList

/-- The standard base64 alphabet, which the decoder's lookup table uses. -/
def std_alphabet : List Char :=
  "ABCDEFGHIJKLMNOPQRSTUVWXYZabcdefghijklmnopqrstuvwxyz0123456789+/".toList

/-- The code-to-character map of the URL-safe encoder. -/
def encChar (v : Nat) : Char :=
  urlsafe_alphabet.getD v 'A'

/-- The character-to-code table of the standard decoder
(`table_a2b_base64`); `none` for characters outside the alphabet. -/
def b64table (c : Char) : Option Nat :=
  std_alphabet.findIdx? (· == c)

/-- The `-_` to `+/` translation `urlsafe_b64decode` applies first. -/
def translateChar (c : Char) : Char :=
  if c = '-' then '+' else if c = '_' then '/' else c

/-- The padding-free body of the base64 encoding: each group of three bytes
becomes four alphabet characters, a trailing group of one or two bytes
becomes two or three. -/
def b64body : List Nat → List Char
  | [] => []
  | [a] => [encChar (a / 4), encChar (a % 4 * 16)]
  | [a, b] => [encChar (a / 4), encChar (a % 4 * 16 + b / 16), encChar (b % 16 * 4)]
  | a :: b :: c :: rest =>
    encChar (a / 4) :: encChar (a % 4 * 16 + b / 16) ::
      encChar (b % 16 * 4 + c / 64) :: encChar (c % 64) :: b64body rest

/-- Number of `=` padding characters `b64encode` appends for an input of
`n` bytes. -/
def b64PadLen (n : Nat) : Nat := (3 - n % 3) % 3

/-- Embeds `b64.rstrip("=")`. -/
def rstripPad (cs : List Char) : List Char :=
  ((cs.reverse).dropWhile (· = '=')).reverse

/-- Decoder state of CPython's `binascii.a2b_base64` (non-strict mode):
position within the current 4-character group, the pending high bits, the
count of adjacent padding characters seen, the output bytes, and whether a
completed padding group already ended the decode. -/
structure A2bState where
  quadPos : Nat
  leftchar : Nat
  pads : Nat
  acc : List Nat
  done : Bool
deriving DecidableEq, Repr

/-- Initial decoder state. -/
def a2bInit : A2bState := ⟨0, 0, 0, [], false⟩

/-- One character of `a2b_base64` (non-strict): after a completed padding
group everything is ignored; `=` only counts once a group has at least two
data characters and ends the decode when the group reaches four of data plus
padding; characters outside the alphabet are discarded; a data character
advances the 4-character group, emitting a byte at positions 1, 2 and 3. -/
def a2bStep (s : A2bState) (c : Char) : A2bState :=
  if s.done then s
  else if c = '=' then
    if 2 ≤ s.quadPos then
      if 4 ≤ s.quadPos + (s.pads + 1) then { s with pads := s.pads + 1, done := true }
      else { s with pads := s.pads + 1 }
    else s
  else
    match b64table c with
    | none => s
    | some v =>
      match s.quadPos with
      | 0 => { s with leftchar := v, quadPos := 1, pads := 0 }
      | 1 => { s with acc := s.acc ++ [s.leftchar * 4 + v / 16], leftchar := v % 16,
                      quadPos := 2, pads := 0 }
      | 2 => { s with acc := s.acc ++ [s.leftchar * 16 + v / 4], leftchar := v % 4,
                      quadPos := 3, pads := 0 }
      | _ => { s with acc := s.acc ++ [s.leftchar * 64 + v], quadPos := 0, pads := 0 }

/-- Embeds `binascii.a2b_base64` in non-strict mode: run the automaton; at
the end of input, a group of one data character is an error, as is an
incomplete group not ended by padding. -/
def a2b_base64 (cs : List Char) : Option (List Nat) :=
  let s := cs.foldl a2bStep a2bInit
  if s.done then some s.acc
  else if s.quadPos = 0 then some s.acc
  else none

/-- Embeds `b64url_encode_path`: UTF-8 encode, URL-safe base64, strip the
`=` padding. -/
def b64url_encode_path (path_str : List Nat) : List Char :=
  let raw := utf8Encode path_str
  rstripPad (b64body raw ++ List.replicate (b64PadLen raw.length) '=')

/-- Embeds `b64url_decode_path`: re-add `"=" * (-len % 4)`, translate the
URL-safe characters, base64-decode, then UTF-8-decode; `none` models the
exception that `get_video_path_from_id_or_404` turns into a 400. -/
def b64url_decode_path (b64_id : List Char) : Option (List Nat) :=
  let padded := b64_id ++ List.replicate ((4 - b64_id.length % 4) % 4) '='
  (a2b_base64 (padded.map translateChar)).bind utf8Decode

/-! # Theorems -/

/-! ## Store lemmas -/

theorem fsLookup_fsWrite_self (fs : FS) (p : ArtPath) (c : Content) :
    fsLookup (fsWrite fs p c) p = some c := by
  simp [fsWrite, fsLookup]

theorem fsLookup_fsWrite_ne (fs : FS) (p q : ArtPath) (c : Content) (h : q ≠ p) :
    fsLookup (fsWrite fs q c) p = fsLookup fs p := by
  simp [fsWrite, fsLookup, h]

theorem pitched_ne_base (file_id fid2 : String) (s : Int) :
    pitched_audio_path_for_id file_id s ≠ audio_base_path_for_id fid2 := by
  intro h
  have hd := congrArg ArtPath.dir h
  simp [pitched_audio_path_for_id, audio_base_path_for_id] at hd

/-! ## C2: ensure runs the producer at most once — per artifact kind -/

/-- C2 (amended): for base audio and pitched audio, the existence check makes
a second sequential call a no-op: if the first call succeeded, the second
returns the same store with zero tool invocations, and each call invokes the
tool at most once; an already-present artifact is returned untouched with no
tool run.  For muxed output, by contrast, `mux_video_with_audio` invokes
`ffmpeg` on every call (no existence check). -/
theorem c2_ensure_at_most_once_per_kind :
    (∀ (ok : Bool) (fs : FS) (v : String) (out : ArtPath),
      (fsLookup fs out).isSome → extract_audio_wav ok fs v out = (Except.ok fs, 0)) ∧
    (∀ (ok1 ok2 : Bool) (fs fs1 : FS) (v : String) (out : ArtPath),
      (extract_audio_wav ok1 fs v out).1 = Except.ok fs1 →
      extract_audio_wav ok2 fs1 v out = (Except.ok fs1, 0) ∧
        (extract_audio_wav ok1 fs v out).2 ≤ 1) ∧
    (∀ (ok1 ok2 : Bool) (fs fs1 : FS) (inw out : ArtPath) (st : Int),
      (sox_pitch_shift_wav ok1 fs inw out st).1 = Except.ok fs1 →
      sox_pitch_shift_wav ok2 fs1 inw out st = (Except.ok fs1, 0) ∧
        (sox_pitch_shift_wav ok1 fs inw out st).2 ≤ 1) ∧
    (∀ (ok : Bool) (fs : FS) (v : String) (a out : ArtPath),
      (mux_video_with_audio ok fs v a out).2 = 1) := by
  refine ⟨?_, ?_, ?_, ?_⟩
  · intro ok fs v out h
    simp [extract_audio_wav, h]
  · intro ok1 ok2 fs fs1 v out h
    by_cases hex : (fsLookup fs out).isSome
    · simp only [extract_audio_wav, if_pos hex] at h ⊢
      cases h
      simp [extract_audio_wav, hex]
    · simp only [extract_audio_wav, if_neg hex] at h ⊢
      cases ok1 with
      | false => simp at h
      | true =>
        simp at h
        subst h
        simp [extract_audio_wav, fsLookup_fsWrite_self]
  · intro ok1 ok2 fs fs1 inw out st h
    by_cases hex : (fsLookup fs out).isSome
    · simp only [sox_pitch_shift_wav, if_pos hex] at h ⊢
      cases h
      simp [sox_pitch_shift_wav, hex]
    · simp only [sox_pitch_shift_wav, if_neg hex] at h ⊢
      cases ok1 with
      | false => simp at h
      | true =>
        simp at h
        subst h
        simp [sox_pitch_shift_wav, fsLookup_fsWrite_self]
  · intro ok fs v a out
    cases ok <;> simp [mux_video_with_audio]

/-- C2 witness: concrete run of the amended theorem's second conjunct —
extracting twice runs `ffmpeg` once, and the second call is a pure cache
hit. -/
theorem c2_witness :
    extract_audio_wav true [(⟨ArtifactDir.audio, "id.wav"⟩, Content.wav "v")] "v"
        ⟨ArtifactDir.audio, "id.wav"⟩ =
      (Except.ok [(⟨ArtifactDir.audio, "id.wav"⟩, Content.wav "v")], 0) ∧
    (extract_audio_wav true [] "v" ⟨ArtifactDir.audio, "id.wav"⟩).2 ≤ 1 :=
  c2_ensure_at_most_once_per_kind.2.1 true true [] [(⟨ArtifactDir.audio, "id.wav"⟩, Content.wav "v")]
    "v" ⟨ArtifactDir.audio, "id.wav"⟩ rfl

/-- C2 counterexample: for the muxed-output kind the claim fails — two
sequential calls for the same key run the external tool twice, the second
one even though the output file already exists. -/
theorem c2_counterexample :
    (mux_video_with_audio true [] "v" ⟨ArtifactDir.audio, "id.wav"⟩
        ⟨ArtifactDir.downloads, "v_+0.mp4"⟩).1 =
      Except.ok [(⟨ArtifactDir.downloads, "v_+0.mp4"⟩,
        Content.muxed "v" ⟨ArtifactDir.audio, "id.wav"⟩)] ∧
    (fsLookup [(⟨ArtifactDir.downloads, "v_+0.mp4"⟩,
        Content.muxed "v" ⟨ArtifactDir.audio, "id.wav"⟩)]
      ⟨ArtifactDir.downloads, "v_+0.mp4"⟩).isSome = true ∧
    (mux_video_with_audio true [] "v" ⟨ArtifactDir.audio, "id.wav"⟩
        ⟨ArtifactDir.downloads, "v_+0.mp4"⟩).2 +
      (mux_video_with_audio true
        [(⟨ArtifactDir.downloads, "v_+0.mp4"⟩,
          Content.muxed "v" ⟨ArtifactDir.audio, "id.wav"⟩)]
        "v" ⟨ArtifactDir.audio, "id.wav"⟩ ⟨ArtifactDir.downloads, "v_+0.mp4"⟩).2 = 2 :=
  ⟨rfl, by decide, by decide⟩

/-! ## C3: concurrent ensure calls for the same key -/

theorem ensureStep_inv (s : EnsureSys) (b : Bool)
    (h : s.runs + (if s.pc1 ≤ 1 then 1 else 0) + (if s.pc2 ≤ 1 then 1 else 0) ≤ 2) :
    (ensureStep s b).runs + (if (ensureStep s b).pc1 ≤ 1 then 1 else 0) +
      (if (ensureStep s b).pc2 ≤ 1 then 1 else 0) ≤ 2 := by
  rcases s with ⟨fw, pc1, pc2, runs⟩
  simp only [ensureStep]
  split_ifs at h ⊢ <;> (try dsimp only at *) <;> omega

theorem foldl_ensureStep_inv (sched : List Bool) (s : EnsureSys)
    (h : s.runs + (if s.pc1 ≤ 1 then 1 else 0) + (if s.pc2 ≤ 1 then 1 else 0) ≤ 2) :
    (sched.foldl ensureStep s).runs +
        (if (sched.foldl ensureStep s).pc1 ≤ 1 then 1 else 0) +
        (if (sched.foldl ensureStep s).pc2 ≤ 1 then 1 else 0) ≤ 2 := by
  induction sched generalizing s with
  | nil => exact h
  | cons b rest ih => exact ih (ensureStep s b) (ensureStep_inv s b h)

/-- C3 (amended): the code has no per-key lock, so "exactly one producer
execution" only holds for non-overlapping calls.  What is true of every
interleaving of two `ensure` calls for the same key is that each call runs
the producer at most once (so at most two runs in total); the sequential
schedule runs it exactly once. -/
theorem c3_ensure_runs_bounded :
    (∀ sched : List Bool, (runSchedule sched).runs ≤ 2) ∧
    runSchedule [true, true, false, false] =
      { fileWritten := true, pc1 := 3, pc2 := 3, runs := 1 } := by
  constructor
  · intro sched
    have h := foldl_ensureStep_inv sched ensureInit (by simp [ensureInit])
    rw [runSchedule]
    split_ifs at h <;> omega
  · decide

/-- C3 counterexample: under the interleaving in which both tasks pass the
existence check before either writes, both run the producer — two producer
executions for one key, refuting "exactly one producer execution occurs". -/
theorem c3_counterexample :
    runSchedule [true, false, true, false] =
      { fileWritten := true, pc1 := 3, pc2 := 3, runs := 2 } ∧
    (runSchedule [true, false, true, false]).runs ≠ 1 := by
  decide

/-! ## C7: semitone range check in `api_pitch` -/

/-- C7: a semitone value outside `[-8, 8]` is rejected with a 400 before any
artifact is consulted or created and with zero external tool invocations;
a value inside `[-8, 8]` never triggers that rejection. -/
theorem c7_semitone_range_check :
    (∀ (soxOk : Bool) (fs : FS) (file_id : String) (s : Int), s < -8 ∨ 8 < s →
      api_pitch soxOk fs file_id s =
        ⟨400, some ApiError.semitonesOutOfRange, 0, fs, none, none⟩) ∧
    (∀ (soxOk : Bool) (fs : FS) (file_id : String) (s : Int), -8 ≤ s → s ≤ 8 →
      (api_pitch soxOk fs file_id s).error ≠ some ApiError.semitonesOutOfRange) := by
  constructor
  · intro soxOk fs file_id s h
    rw [api_pitch, if_pos h]
  · intro soxOk fs file_id s h1 h2
    rw [api_pitch, if_neg (by omega)]
    by_cases hb : (fsLookup fs (audio_base_path_for_id file_id)).isNone
    · simp [hb]
    · simp only [hb, if_false]
      rcases hsox : sox_pitch_shift_wav soxOk fs (audio_base_path_for_id file_id)
        (pitched_audio_path_for_id file_id s) s with ⟨res, n⟩
      cases res <;> simp

/-- C7 witness: `api_pitch` at semitones 9 on an empty store. -/
theorem c7_witness :
    api_pitch true [] "id" 9 = ⟨400, some ApiError.semitonesOutOfRange, 0, [], none, none⟩ :=
  c7_semitone_range_check.1 true [] "id" 9 (by decide)

/-! ## C8: `api_store_video` preconditions -/

/-- C8: with the source video present, a nonzero semitone value whose
pitched-audio artifact is absent is rejected with the "generate it first"
400, without running any tool and without touching the store (the store may
well contain the base-audio artifact: it is not consulted); with semitones 0
the audio source is the base-audio artifact, which `ffmpeg` then muxes. -/
theorem c8_store_video_precondition :
    (∀ (muxOk : Bool) (fs : FS) (vp stem file_id : String) (s : Int), s ≠ 0 →
      fsLookup fs (pitched_audio_path_for_id file_id s) = none →
      api_store_video muxOk fs (some (vp, stem)) file_id s =
        ⟨400, some ApiError.audioNotAvailable, 0, fs, none, none⟩) ∧
    (∀ (fs : FS) (vp stem file_id : String) (c : Content),
      fsLookup fs (audio_base_path_for_id file_id) = some c →
      api_store_video true fs (some (vp, stem)) file_id 0 =
        ⟨200, none, 1,
          fsWrite fs ⟨ArtifactDir.downloads, stem ++ "_" ++ "+" ++ toString (0 : Nat) ++ ".mp4"⟩
            (Content.muxed vp (audio_base_path_for_id file_id)),
          none,
          some ⟨ArtifactDir.downloads, stem ++ "_" ++ "+" ++ toString (0 : Nat) ++ ".mp4"⟩⟩) := by
  constructor
  · intro muxOk fs vp stem file_id s hs habs
    simp only [api_store_video, if_pos hs, ne_eq, hs, not_false_eq_true, if_true, habs]
    simp
  · intro fs vp stem file_id c hbase
    simp only [api_store_video, ne_eq, not_true_eq_false, if_false, reduceIte, hbase]
    simp [mux_video_with_audio]

/-- C8 witness: base audio present, pitched audio for 3 absent — the store
request for 3 semitones is rejected even though base audio exists. -/
theorem c8_witness :
    api_store_video true [(audio_base_path_for_id "id", Content.wav "v")] (some ("v", "clip"))
        "id" 3 =
      ⟨400, some ApiError.audioNotAvailable, 0,
        [(audio_base_path_for_id "id", Content.wav "v")], none, none⟩ :=
  c8_store_video_precondition.1 true [(audio_base_path_for_id "id", Content.wav "v")] "v" "clip"
    "id" 3 (by decide) (by decide)

/-! ## C10: pitch 0 writes `{id}_+0.wav` but the returned URL streams the base audio -/

/-- C10: with base audio present and the pitch-0 artifact absent, a pitch
request for 0 semitones succeeds, writes the artifact at the pitch
directory's `{id}_+0.wav` — a location distinct from the base audio — and
returns an audio URL carrying `pitch=0`; fetching that URL resolves to the
base-audio artifact, not the artifact just produced. -/
theorem c10_pitch_zero_streams_base (fs : FS) (file_id : String) (c : Content)
    (hbase : fsLookup fs (audio_base_path_for_id file_id) = some c)
    (habs : fsLookup fs (pitched_audio_path_for_id file_id 0) = none) :
    (api_pitch true fs file_id 0).status = 200 ∧
    fsLookup (api_pitch true fs file_id 0).fs (pitched_audio_path_for_id file_id 0) =
      some (Content.pitched (audio_base_path_for_id file_id) 0) ∧
    (pitched_audio_path_for_id file_id 0).dir = ArtifactDir.pitch ∧
    (pitched_audio_path_for_id file_id 0).name = file_id ++ "_+0.wav" ∧
    pitched_audio_path_for_id file_id 0 ≠ audio_base_path_for_id file_id ∧
    (api_pitch true fs file_id 0).audioUrlPitch = some 0 ∧
    serve_audio_resolved_path file_id 0 = audio_base_path_for_id file_id ∧
    serve_audio (api_pitch true fs file_id 0).fs file_id 0 = some c := by
  have hpitch : api_pitch true fs file_id 0 =
      ⟨200, none, 1,
        fsWrite fs (pitched_audio_path_for_id file_id 0)
          (Content.pitched (audio_base_path_for_id file_id) 0),
        some 0, none⟩ := by
    rw [api_pitch, if_neg (by omega)]
    simp only [hbase, Option.isNone_some, if_false, reduceIte]
    simp [sox_pitch_shift_wav, habs]
  refine ⟨by rw [hpitch], ?_, by rfl, ?_, pitched_ne_base file_id file_id 0, by rw [hpitch], ?_, ?_⟩
  · rw [hpitch]
    exact fsLookup_fsWrite_self _ _ _
  · show ((((file_id ++ "_") ++ "+") ++ toString ((0:Int).natAbs)) ++ ".wav") = file_id ++ "_+0.wav"
    simp only [String.append_assoc]
    rfl
  · rw [serve_audio_resolved_path, if_pos rfl]
  · rw [serve_audio, serve_audio_resolved_path, if_pos rfl, hpitch]
    rw [fsLookup_fsWrite_ne _ _ _ _ (pitched_ne_base file_id file_id 0)]
    exact hbase

/-- C10 witness: a concrete store with base audio for `"id"`. -/
theorem c10_witness :
    (api_pitch true [(audio_base_path_for_id "id", Content.wav "v")] "id" 0).status = 200 ∧
    fsLookup (api_pitch true [(audio_base_path_for_id "id", Content.wav "v")] "id" 0).fs
        (pitched_audio_path_for_id "id" 0) =
      some (Content.pitched (audio_base_path_for_id "id") 0) ∧
    (pitched_audio_path_for_id "id" 0).dir = ArtifactDir.pitch ∧
    (pitched_audio_path_for_id "id" 0).name = "id" ++ "_+0.wav" ∧
    pitched_audio_path_for_id "id" 0 ≠ audio_base_path_for_id "id" ∧
    (api_pitch true [(audio_base_path_for_id "id", Content.wav "v")] "id" 0).audioUrlPitch =
      some 0 ∧
    serve_audio_resolved_path "id" 0 = audio_base_path_for_id "id" ∧
    serve_audio (api_pitch true [(audio_base_path_for_id "id", Content.wav "v")] "id" 0).fs
        "id" 0 = some (Content.wav "v") :=
  c10_pitch_zero_streams_base [(audio_base_path_for_id "id", Content.wav "v")] "id"
    (Content.wav "v") (by decide) (by decide)

/-! ## Parsing lemmas for the range responder -/

theorem splitAtFirst_append (sep : Char) (xs ys : List Char) (h : ∀ c ∈ xs, c ≠ sep) :
    splitAtFirst sep (xs ++ sep :: ys) = some (xs, ys) := by
  induction xs with
  | nil => simp [splitAtFirst]
  | cons c rest ih =>
    have hc : c ≠ sep := h c (List.mem_cons_self c rest)
    have ih2 := ih (fun x hx => h x (List.mem_cons_of_mem c hx))
    simp only [List.cons_append, splitAtFirst, if_neg hc, List.append_eq, ih2]

theorem splitAtFirst_none (sep : Char) (cs : List Char) (h : ∀ c ∈ cs, c ≠ sep) :
    splitAtFirst sep cs = none := by
  induction cs with
  | nil => rfl
  | cons c rest ih =>
    have hc : c ≠ sep := h c (List.mem_cons_self c rest)
    have ih2 := ih (fun x hx => h x (List.mem_cons_of_mem c hx))
    simp only [splitAtFirst, if_neg hc, ih2]

theorem pyPartition_append (sep : Char) (xs ys : List Char) (h : ∀ c ∈ xs, c ≠ sep) :
    pyPartition (xs ++ sep :: ys) sep = (xs, ys) := by
  rw [pyPartition, splitAtFirst_append sep xs ys h]

theorem pyPartition_no_sep (sep : Char) (cs : List Char) (h : ∀ c ∈ cs, c ≠ sep) :
    pyPartition cs sep = (cs, []) := by
  rw [pyPartition, splitAtFirst_none sep cs h]

theorem isDigitChar_digitChar (d : Nat) : isDigitChar (digitChar d) = true := by
  rcases Nat.lt_or_ge d 9 with h | h
  · interval_cases d <;> decide
  · obtain ⟨k, rfl⟩ : ∃ k, d = k + 9 := ⟨d - 9, by omega⟩
    show isDigitChar '9' = true
    decide

theorem digitVal_digitChar (d : Nat) (h : d < 10) : digitVal (digitChar d) = d := by
  interval_cases d <;> decide

theorem isDigitChar_spec (c : Char) (h : isDigitChar c = true) :
    48 ≤ c.toNat ∧ c.toNat ≤ 57 := by
  simpa [isDigitChar, decide_eq_true_eq] using h

theorem isDigitChar_not_pySpace (c : Char) (h : isDigitChar c = true) : isPySpace c = false := by
  have hc := isDigitChar_spec c h
  simp only [isPySpace, decide_eq_false_iff_not]
  push_neg
  refine ⟨?_, ?_, ?_, ?_, ?_, ?_⟩ <;>
    (intro e; subst e; exact absurd hc.1 (by decide))

theorem isDigitChar_ne (c : Char) (h : isDigitChar c = true) :
    c ≠ '+' ∧ c ≠ '-' ∧ c ≠ '=' ∧ c ≠ '_' := by
  have hc := isDigitChar_spec c h
  refine ⟨?_, ?_, ?_, ?_⟩ <;>
    (intro e; subst e; first
      | exact absurd hc.1 (by decide)
      | exact absurd hc.2 (by decide))

theorem natToDigitsAux_all_digits (fuel : Nat) : ∀ n, n < fuel →
    ∀ c ∈ natToDigitsAux fuel n, isDigitChar c = true := by
  induction fuel with
  | zero => intro n hn; omega
  | succ fuel ih =>
    intro n hn c hc
    rw [natToDigitsAux] at hc
    split_ifs at hc with h10
    · simp at hc
      subst hc
      exact isDigitChar_digitChar n
    · rw [List.mem_append] at hc
      rcases hc with hc | hc
      · exact ih (n / 10) (by omega) c hc
      · simp at hc
        subst hc
        exact isDigitChar_digitChar _

theorem natToDigits_all_digits (n : Nat) : ∀ c ∈ natToDigits n, isDigitChar c = true :=
  natToDigitsAux_all_digits (n + 1) n (by omega)

theorem natToDigitsAux_ne_nil (fuel n : Nat) (h : n < fuel) : natToDigitsAux fuel n ≠ [] := by
  cases fuel with
  | zero => omega
  | succ fuel =>
    rw [natToDigitsAux]
    split_ifs <;> simp

theorem natToDigits_ne_nil (n : Nat) : natToDigits n ≠ [] :=
  natToDigitsAux_ne_nil (n + 1) n (by omega)

theorem natToDigitsAux_foldl (fuel : Nat) : ∀ n, n < fuel → ∀ acc : Nat,
    (natToDigitsAux fuel n).foldl (fun a c => a * 10 + digitVal c) acc =
      acc * 10 ^ (natToDigitsAux fuel n).length + n := by
  induction fuel with
  | zero => intro n hn; omega
  | succ fuel ih =>
    intro n hn acc
    rw [natToDigitsAux]
    split_ifs with h10
    · simp [digitVal_digitChar n h10]
    · rw [List.foldl_append, ih (n / 10) (by omega) acc]
      simp only [List.foldl_cons, List.foldl_nil, List.length_append, List.length_cons,
        List.length_nil, Nat.zero_add]
      rw [digitVal_digitChar (n % 10) (by omega), pow_succ, ← Nat.mul_assoc]
      generalize acc * 10 ^ (natToDigitsAux fuel (n / 10)).length = A
      omega

theorem digitsCore_digits (ds : List Char) : ∀ acc : Nat,
    (∀ c ∈ ds, isDigitChar c = true) →
    digitsCore acc ds = some (ds.foldl (fun a c => a * 10 + digitVal c) acc) := by
  induction ds with
  | nil => intro acc _; rfl
  | cons c rest ih =>
    intro acc h
    have hc : isDigitChar c = true := h c (List.mem_cons_self c rest)
    rw [digitsCore.eq_def]
    dsimp only
    rw [if_neg (isDigitChar_ne c hc).2.2.2, if_pos hc,
      ih _ (fun x hx => h x (List.mem_cons_of_mem c hx))]
    rfl

theorem pyNatDigits_eq_foldl (cs : List Char) (c : Char) (rest : List Char)
    (hcs : cs = c :: rest) (h : ∀ x ∈ cs, isDigitChar x = true) :
    pyNatDigits cs = some (cs.foldl (fun a x => a * 10 + digitVal x) 0) := by
  subst hcs
  have hc : isDigitChar c = true := h c (List.mem_cons_self c rest)
  rw [pyNatDigits, if_pos hc, digitsCore_digits rest (digitVal c)
    (fun x hx => h x (List.mem_cons_of_mem c hx))]
  simp

theorem pyNatDigits_natToDigits (n : Nat) : pyNatDigits (natToDigits n) = some n := by
  rcases hcs : natToDigits n with _ | ⟨c, rest⟩
  · exact absurd hcs (natToDigits_ne_nil n)
  · rw [← hcs, pyNatDigits_eq_foldl (natToDigits n) c rest hcs (natToDigits_all_digits n)]
    rw [show natToDigits n = natToDigitsAux (n + 1) n from rfl,
      natToDigitsAux_foldl (n + 1) n (by omega) 0]
    simp

theorem dropWhile_eq_self_of_all (p : Char → Bool) (cs : List Char)
    (h : ∀ c ∈ cs, p c = false) : cs.dropWhile p = cs := by
  cases cs with
  | nil => rfl
  | cons c rest => simp [List.dropWhile, h c (List.mem_cons_self c rest)]

theorem pyStrip_of_no_space (cs : List Char) (h : ∀ c ∈ cs, isPySpace c = false) :
    pyStrip cs = cs := by
  rw [pyStrip, dropWhile_eq_self_of_all _ cs h,
    dropWhile_eq_self_of_all _ cs.reverse (fun c hc => h c (List.mem_reverse.mp hc)),
    List.reverse_reverse]

theorem pyInt_natToDigits (n : Nat) : pyInt (natToDigits n) = some (n : Int) := by
  rcases hcs : natToDigits n with _ | ⟨c, rest⟩
  · exact absurd hcs (natToDigits_ne_nil n)
  · have hd := natToDigits_all_digits n
    rw [hcs] at hd
    have hc : isDigitChar c = true := hd c (List.mem_cons_self c rest)
    have hstrip : pyStrip (c :: rest) = c :: rest :=
      pyStrip_of_no_space _ (fun x hx => isDigitChar_not_pySpace x (hd x hx))
    rw [pyInt, hstrip]
    dsimp only
    rw [if_neg (isDigitChar_ne c hc).1, if_neg (isDigitChar_ne c hc).2.1]
    rw [← hcs, pyNatDigits_natToDigits n]
    rfl

theorem send_file_range_parsed (file : List Nat) (s : Nat) (endDigits : List Char) :
    send_file_range file (some ("bytes".toList ++ '=' :: (natToDigits s ++ '-' :: endDigits))) =
      (match (if endDigits = [] then some ((file.length : Int) - 1) else pyInt endDigits) with
       | none => full_file_response file
       | some end0 =>
         let end1 : Int := if (file.length : Int) ≤ end0 then (file.length : Int) - 1 else end0
         let length : Int := end1 - (s : Int) + 1
         match fileReadFrom file s length with
         | none => internal_error_response
         | some data =>
           { status := 206
             body := data
             contentRange := some (contentRangeHeader s end1 file.length)
             contentLength := some length
             acceptRanges := true
             noStore := true }) := by
  rw [send_file_range]
  dsimp only
  rw [pyPartition_append '=' "bytes".toList (natToDigits s ++ '-' :: endDigits) (by decide)]
  dsimp only
  rw [if_neg (by simp)]
  rw [pyPartition_append '-' (natToDigits s) endDigits
    (fun c hc => (isDigitChar_ne c (natToDigits_all_digits s c hc)).2.1)]
  dsimp only
  rw [if_neg (natToDigits_ne_nil s), pyInt_natToDigits s]

/-- C4: a well-formed byte-range request with `0 ≤ start ≤ end < S` is
answered with exactly the bytes from start to end inclusive, status 206,
`Content-Range: bytes {start}-{end}/{S}` and Content-Length
`end - start + 1`; an end bound at or past `S` is clamped to `S - 1`
before responding. -/
theorem c4_range_request_well_formed :
    (∀ (file : List Nat) (s e : Nat), s ≤ e → e < file.length →
      send_file_range file (some (mkRangeHeader s e)) =
        { status := 206
          body := (file.drop s).take (e - s + 1)
          contentRange := some (contentRangeHeader s e file.length)
          contentLength := some ((e : Int) - (s : Int) + 1)
          acceptRanges := true
          noStore := true }) ∧
    (∀ (file : List Nat) (s e : Nat), s < file.length → file.length ≤ e →
      send_file_range file (some (mkRangeHeader s e)) =
        { status := 206
          body := file.drop s
          contentRange := some (contentRangeHeader s ((file.length : Int) - 1) file.length)
          contentLength := some ((file.length : Int) - (s : Int))
          acceptRanges := true
          noStore := true }) := by
  constructor
  · intro file s e hse he
    rw [mkRangeHeader, send_file_range_parsed file s (natToDigits e)]
    rw [if_neg (natToDigits_ne_nil e), pyInt_natToDigits e]
    dsimp only
    rw [if_neg (by omega : ¬((file.length : Int) ≤ (e : Int)))]
    rw [show fileReadFrom file (s : Int) ((e : Int) - (s : Int) + 1) =
        some ((file.drop s).take (e - s + 1)) from by
      rw [fileReadFrom, if_neg (by omega), if_neg (by omega), Int.toNat_ofNat,
        (by omega : ((e : Int) - (s : Int) + 1).toNat = e - s + 1)]]
  · intro file s e hs he
    rw [mkRangeHeader, send_file_range_parsed file s (natToDigits e)]
    rw [if_neg (natToDigits_ne_nil e), pyInt_natToDigits e]
    dsimp only
    rw [if_pos (by omega : (file.length : Int) ≤ (e : Int))]
    rw [show fileReadFrom file (s : Int) ((file.length : Int) - 1 - (s : Int) + 1) =
        some (file.drop s) from by
      rw [fileReadFrom, if_neg (by omega), if_neg (by omega), Int.toNat_ofNat,
        (by omega : ((file.length : Int) - 1 - (s : Int) + 1).toNat = file.length - s),
        List.take_of_length_le (by simp)]]
    rw [(by ring : (file.length : Int) - 1 - (s : Int) + 1 = (file.length : Int) - (s : Int))]

theorem c4_witness :
    send_file_range [10, 11, 12, 13, 14] (some (mkRangeHeader 1 3)) =
      { status := 206
        body := [11, 12, 13]
        contentRange := some "bytes 1-3/5"
        contentLength := some 3
        acceptRanges := true
        noStore := true } :=
  (c4_range_request_well_formed.1 [10, 11, 12, 13, 14] 1 3 (by decide) (by decide)).trans
    (by decide)

/-- C5 (amended): the start bound is not clamped.  With start equal to `S`
or `S + 1` the read returns no bytes and the responder still answers 206
with content-range `bytes {start}-{S-1}/{S}` carrying the original
out-of-range start and Content-Length `S - start` (zero or minus one);
with start at least `S + 2`, the count handed to `f.read` is below `-1`,
the resulting `ValueError` escapes the handler (the read sits outside the
`try` block), and the request fails as a 500 with no content-range at all.
In no case is the reported start reduced to `S - 1`. -/
theorem c5_start_not_clamped :
    (∀ (file : List Nat) (s : Nat), file.length ≤ s → s ≤ file.length + 1 →
      send_file_range file (some (mkOpenRangeHeader s)) =
        { status := 206
          body := []
          contentRange := some (contentRangeHeader s ((file.length : Int) - 1) file.length)
          contentLength := some ((file.length : Int) - (s : Int))
          acceptRanges := true
          noStore := true }) ∧
    (∀ (file : List Nat) (s : Nat), file.length + 2 ≤ s →
      send_file_range file (some (mkOpenRangeHeader s)) = internal_error_response) := by
  constructor
  · intro file s hs hs2
    rw [mkOpenRangeHeader, show (['-'] : List Char) = '-' :: [] from rfl,
      send_file_range_parsed file s []]
    rw [if_pos rfl]
    dsimp only
    rw [if_neg (by omega : ¬((file.length : Int) ≤ (file.length : Int) - 1))]
    rw [show fileReadFrom file (s : Int) ((file.length : Int) - 1 - (s : Int) + 1) =
        some [] from by
      rw [fileReadFrom, if_neg (by omega)]
      by_cases h1 : (file.length : Int) - 1 - (s : Int) + 1 = -1
      · rw [if_pos h1, Int.toNat_ofNat, List.drop_eq_nil_of_le hs]
      · rw [if_neg h1, Int.toNat_ofNat,
          (by omega : ((file.length : Int) - 1 - (s : Int) + 1).toNat = 0), List.take_zero]]
    rw [(by ring : (file.length : Int) - 1 - (s : Int) + 1 = (file.length : Int) - (s : Int))]
  · intro file s hs
    rw [mkOpenRangeHeader, show (['-'] : List Char) = '-' :: [] from rfl,
      send_file_range_parsed file s []]
    rw [if_pos rfl]
    dsimp only
    rw [if_neg (by omega : ¬((file.length : Int) ≤ (file.length : Int) - 1))]
    rw [show fileReadFrom file (s : Int) ((file.length : Int) - 1 - (s : Int) + 1) =
        none from by
      rw [fileReadFrom, if_pos (by omega)]]

/-- C5 witness for the amended claim: on a 10-byte file, start 11 exercises
the 206 response with Content-Length `-1` (the `f.read(-1)` empty read past
end of file), start 12 the uncaught-`ValueError` 500. -/
theorem c5_witness :
    send_file_range (List.range 10) (some (mkOpenRangeHeader 11)) =
      { status := 206
        body := []
        contentRange := some "bytes 11-9/10"
        contentLength := some (-1)
        acceptRanges := true
        noStore := true } ∧
    send_file_range (List.range 10) (some (mkOpenRangeHeader 12)) = internal_error_response :=
  ⟨(c5_start_not_clamped.1 (List.range 10) 11 (by decide) (by decide)).trans (by decide),
    c5_start_not_clamped.2 (List.range 10) 12 (by decide)⟩

/-- C5 counterexample to the claim as stated: `bytes=999999-` on a 10-byte
file does not produce the min-clamped content-range `bytes 9-9/10` — the
read count `10 - 1 - 999999 + 1` is below `-1`, `f.read` raises an
uncaught `ValueError`, and the request fails as a 500 carrying no
content-range header at all. -/
theorem c5_counterexample :
    send_file_range (List.range 10) (some (mkOpenRangeHeader 999999)) =
      internal_error_response ∧
    (send_file_range (List.range 10) (some (mkOpenRangeHeader 999999))).contentRange ≠
      some "bytes 9-9/10" := by
  constructor <;> decide

theorem isScalar_spec (c : Nat) (h : isScalar c = true) :
    c < 0xD800 ∨ (0xE000 ≤ c ∧ c < 0x110000) := by
  simpa [isScalar, decide_eq_true_eq] using h

theorem utf8EncodeChar_lt_256 (c : Nat) (hc : c < 0x110000) :
    ∀ b ∈ utf8EncodeChar c, b < 256 := by
  intro b hb
  rw [utf8EncodeChar] at hb
  split_ifs at hb with h1 h2 h3 <;> simp at hb <;>
    rcases hb with rfl | rfl | rfl | rfl <;> omega

theorem utf8Encode_lt_256 (cps : List Nat) (h : ∀ c ∈ cps, isScalar c = true) :
    ∀ b ∈ utf8Encode cps, b < 256 := by
  induction cps with
  | nil => intro b hb; simp [utf8Encode] at hb
  | cons c rest ih =>
    intro b hb
    rw [utf8Encode, List.mem_append] at hb
    rcases hb with hb | hb
    · have hc := isScalar_spec c (h c (List.mem_cons_self c rest))
      exact utf8EncodeChar_lt_256 c (by omega) b hb
    · exact ih (fun x hx => h x (List.mem_cons_of_mem c hx)) b hb

theorem isCont_iff (b : Nat) : isCont b = true ↔ 0x80 ≤ b ∧ b < 0xC0 := by
  simp [isCont, decide_eq_true_eq]

theorem utf8DecodeAux_nil (fuel : Nat) : utf8DecodeAux fuel [] = some [] := by
  cases fuel <;> rfl

theorem utf8DecodeOne_length (b0 : Nat) (rest : List Nat) (c : Nat) (rest2 : List Nat)
    (h : utf8DecodeOne b0 rest = some (c, rest2)) : rest2.length ≤ rest.length := by
  rw [utf8DecodeOne.eq_def] at h
  split_ifs at h with h1 h2 h3 h4 h5
  · simp only [Option.some.injEq, Prod.mk.injEq] at h
    rw [← h.2]
  · rcases rest with _ | ⟨b1, rest1⟩
    · simp at h
    · dsimp only at h
      split_ifs at h
      simp only [Option.some.injEq, Prod.mk.injEq] at h
      rw [← h.2]
      simp
  · rcases rest with _ | ⟨b1, _ | ⟨b2, rest2x⟩⟩
    · simp at h
    · simp at h
    · dsimp only at h
      split_ifs at h
      simp only [Option.some.injEq, Prod.mk.injEq] at h
      rw [← h.2]
      simp
      omega
  · rcases rest with _ | ⟨b1, _ | ⟨b2, _ | ⟨b3, rest3x⟩⟩⟩
    · simp at h
    · simp at h
    · simp at h
    · dsimp only at h
      split_ifs at h
      simp only [Option.some.injEq, Prod.mk.injEq] at h
      rw [← h.2]
      simp
      omega

theorem utf8DecodeAux_fuel (fuel1 : Nat) : ∀ (bs : List Nat) (fuel2 : Nat),
    bs.length ≤ fuel1 → bs.length ≤ fuel2 →
    utf8DecodeAux fuel1 bs = utf8DecodeAux fuel2 bs := by
  induction fuel1 with
  | zero =>
    intro bs fuel2 h1 _
    rcases bs with _ | ⟨b0, rest⟩
    · rw [utf8DecodeAux_nil, utf8DecodeAux_nil]
    · simp at h1
  | succ f1 ih =>
    intro bs fuel2 h1 h2
    rcases bs with _ | ⟨b0, rest⟩
    · rw [utf8DecodeAux_nil, utf8DecodeAux_nil]
    · rcases fuel2 with _ | f2
      · simp at h2
      · rw [utf8DecodeAux, utf8DecodeAux]
        rcases hone : utf8DecodeOne b0 rest with _ | ⟨c, rest2⟩
        · rfl
        · dsimp only
          have hlen := utf8DecodeOne_length b0 rest c rest2 hone
          simp only [List.length_cons] at h1 h2
          rw [ih rest2 f2 (by omega) (by omega)]

theorem utf8DecodeOne_encodeChar (c : Nat) (hc : isScalar c = true) (bs : List Nat) :
    ∃ b0 tail, utf8EncodeChar c ++ bs = b0 :: tail ∧
      utf8DecodeOne b0 tail = some (c, bs) ∧ bs.length ≤ tail.length := by
  have hs := isScalar_spec c hc
  rw [utf8EncodeChar]
  by_cases h1 : c < 0x80
  · rw [if_pos h1]
    refine ⟨c, bs, by simp, ?_, by simp⟩
    rw [utf8DecodeOne.eq_def, if_pos h1]
  · rw [if_neg h1]
    by_cases h2 : c < 0x800
    · rw [if_pos h2]
      refine ⟨0xC0 + c / 64, (0x80 + c % 64) :: bs, by simp, ?_, by simp⟩
      rw [utf8DecodeOne.eq_def, if_neg (by omega), if_neg (by omega), if_pos (by omega)]
      dsimp only
      rw [if_pos (by rw [isCont_iff]; omega)]
      rw [(by omega : (0xC0 + c / 64 - 0xC0) * 64 + (0x80 + c % 64 - 0x80) = c)]
    · rw [if_neg h2]
      by_cases h3 : c < 0x10000
      · rw [if_pos h3]
        refine ⟨0xE0 + c / 4096, (0x80 + c / 64 % 64) :: (0x80 + c % 64) :: bs, by simp, ?_,
          by simp; omega⟩
        rw [utf8DecodeOne.eq_def, if_neg (by omega), if_neg (by omega), if_neg (by omega),
          if_pos (by omega)]
        dsimp only
        rw [if_pos ⟨by rw [isCont_iff]; omega, by rw [isCont_iff]; omega⟩]
        rw [(by omega : (0xE0 + c / 4096 - 0xE0) * 4096 + (0x80 + c / 64 % 64 - 0x80) * 64 +
          (0x80 + c % 64 - 0x80) = c)]
        rw [if_neg (by omega), if_neg (by omega)]
      · rw [if_neg h3]
        refine ⟨0xF0 + c / 262144,
          (0x80 + c / 4096 % 64) :: (0x80 + c / 64 % 64) :: (0x80 + c % 64) :: bs, by simp, ?_,
          by simp; omega⟩
        rw [utf8DecodeOne.eq_def, if_neg (by omega), if_neg (by omega), if_neg (by omega),
          if_neg (by omega), if_pos (by omega)]
        dsimp only
        rw [if_pos ⟨by rw [isCont_iff]; omega, by rw [isCont_iff]; omega,
          by rw [isCont_iff]; omega⟩]
        rw [(by omega : (0xF0 + c / 262144 - 0xF0) * 262144 + (0x80 + c / 4096 % 64 - 0x80) * 4096 +
          (0x80 + c / 64 % 64 - 0x80) * 64 + (0x80 + c % 64 - 0x80) = c)]
        rw [if_neg (by omega), if_neg (by omega)]

theorem utf8Decode_encodeChar (c : Nat) (hc : isScalar c = true) (bs : List Nat) :
    utf8Decode (utf8EncodeChar c ++ bs) = (utf8Decode bs).map (fun l => c :: l) := by
  obtain ⟨b0, tail, heq, hone, hlen⟩ := utf8DecodeOne_encodeChar c hc bs
  rw [utf8Decode, utf8Decode, heq]
  simp only [List.length_cons]
  rw [utf8DecodeAux, hone]
  dsimp only
  rw [utf8DecodeAux_fuel tail.length bs bs.length hlen (Nat.le_refl bs.length)]

theorem utf8Decode_utf8Encode (cps : List Nat) (h : ∀ c ∈ cps, isScalar c = true) :
    utf8Decode (utf8Encode cps) = some cps := by
  induction cps with
  | nil => rfl
  | cons c rest ih =>
    rw [utf8Encode, utf8Decode_encodeChar c (h c (List.mem_cons_self c rest)),
      ih (fun x hx => h x (List.mem_cons_of_mem c hx))]
    rfl

/-! ## Base64 codec lemmas -/

theorem translateChar_pad : translateChar '=' = '=' := rfl

theorem translate_enc_spec : ∀ v < 64, translateChar (encChar v) ≠ '=' ∧
    b64table (translateChar (encChar v)) = some v := by
  decide

theorem enc_mem_alphabet : ∀ v < 64, encChar v ∈ urlsafe_alphabet := by
  decide

theorem alphabet_not_slash_pad : ∀ c ∈ urlsafe_alphabet, c ≠ '/' ∧ c ≠ '=' := by
  decide

theorem alphabet_table_isSome : ∀ c ∈ urlsafe_alphabet, translateChar c ≠ '=' ∧
    (b64table (translateChar c)).isSome = true := by
  decide

theorem a2bStep_done (s : A2bState) (c : Char) (hd : s.done = true) : a2bStep s c = s := by
  rw [a2bStep, if_pos hd]

theorem a2bStep_pad_lt2 (s : A2bState) (hd : s.done = false) (hq : s.quadPos < 2) :
    a2bStep s '=' = s := by
  rw [a2bStep, if_neg (by rw [hd]; simp), if_pos rfl, if_neg (by omega)]

theorem a2bStep_pad2_first (l : Nat) (acc : List Nat) :
    a2bStep ⟨2, l, 0, acc, false⟩ '=' = ⟨2, l, 1, acc, false⟩ := by
  rw [a2bStep, if_neg (by simp), if_pos rfl, if_pos (by dsimp only; omega),
    if_neg (by dsimp only; omega)]

theorem a2bStep_pad2_second (l : Nat) (acc : List Nat) :
    a2bStep ⟨2, l, 1, acc, false⟩ '=' = ⟨2, l, 2, acc, true⟩ := by
  rw [a2bStep, if_neg (by simp), if_pos rfl, if_pos (by dsimp only; omega),
    if_pos (by dsimp only; omega)]

theorem a2bStep_pad3 (l p : Nat) (acc : List Nat) :
    a2bStep ⟨3, l, p, acc, false⟩ '=' = ⟨3, l, p + 1, acc, true⟩ := by
  rw [a2bStep, if_neg (by simp), if_pos rfl, if_pos (by dsimp only; omega),
    if_pos (by dsimp only; omega)]

theorem a2bStep_data0 (l p : Nat) (acc : List Nat) (v : Nat) (c : Char)
    (hne : c ≠ '=') (ht : b64table c = some v) :
    a2bStep ⟨0, l, p, acc, false⟩ c = ⟨1, v, 0, acc, false⟩ := by
  rw [a2bStep, if_neg (by simp), if_neg hne, ht]
  rfl

theorem a2bStep_data1 (l p : Nat) (acc : List Nat) (v : Nat) (c : Char)
    (hne : c ≠ '=') (ht : b64table c = some v) :
    a2bStep ⟨1, l, p, acc, false⟩ c = ⟨2, v % 16, 0, acc ++ [l * 4 + v / 16], false⟩ := by
  rw [a2bStep, if_neg (by simp), if_neg hne, ht]
  rfl

theorem a2bStep_data2 (l p : Nat) (acc : List Nat) (v : Nat) (c : Char)
    (hne : c ≠ '=') (ht : b64table c = some v) :
    a2bStep ⟨2, l, p, acc, false⟩ c = ⟨3, v % 4, 0, acc ++ [l * 16 + v / 4], false⟩ := by
  rw [a2bStep, if_neg (by simp), if_neg hne, ht]
  rfl

theorem a2bStep_data3 (l p : Nat) (acc : List Nat) (v : Nat) (c : Char)
    (hne : c ≠ '=') (ht : b64table c = some v) :
    a2bStep ⟨3, l, p, acc, false⟩ c = ⟨0, l, 0, acc ++ [l * 64 + v], false⟩ := by
  rw [a2bStep, if_neg (by simp), if_neg hne, ht]
  rfl

theorem fold4_group (s : A2bState) (a b c : Nat) (hd : s.done = false) (hq : s.quadPos = 0)
    (ha : a < 256) (hb : b < 256) (hc : c < 256) :
    List.foldl a2bStep s
      [translateChar (encChar (a / 4)), translateChar (encChar (a % 4 * 16 + b / 16)),
        translateChar (encChar (b % 16 * 4 + c / 64)), translateChar (encChar (c % 64))] =
      { quadPos := 0, leftchar := c / 64, pads := 0, acc := s.acc ++ [a, b, c],
        done := false } := by
  obtain ⟨hne0, ht0⟩ := translate_enc_spec (a / 4) (by omega)
  obtain ⟨hne1, ht1⟩ := translate_enc_spec (a % 4 * 16 + b / 16) (by omega)
  obtain ⟨hne2, ht2⟩ := translate_enc_spec (b % 16 * 4 + c / 64) (by omega)
  obtain ⟨hne3, ht3⟩ := translate_enc_spec (c % 64) (by omega)
  rcases s with ⟨q, l, p, acc, d⟩
  dsimp only at hd hq ⊢
  subst hd
  subst hq
  simp only [List.foldl_cons, List.foldl_nil]
  rw [a2bStep_data0 l p acc _ _ hne0 ht0]
  rw [a2bStep_data1 _ _ _ _ _ hne1 ht1]
  rw [a2bStep_data2 _ _ _ _ _ hne2 ht2]
  rw [a2bStep_data3 _ _ _ _ _ hne3 ht3]
  rw [(by omega : a / 4 * 4 + (a % 4 * 16 + b / 16) / 16 = a)]
  rw [(by omega : (a % 4 * 16 + b / 16) % 16 * 16 + (b % 16 * 4 + c / 64) / 4 = b)]
  rw [(by omega : (b % 16 * 4 + c / 64) % 4 * 64 + c % 64 = c)]
  rw [(by omega : (b % 16 * 4 + c / 64) % 4 = c / 64)]
  simp [List.append_assoc]

theorem fold_tail1 (s : A2bState) (a : Nat) (hd : s.done = false) (hq : s.quadPos = 0)
    (ha : a < 256) :
    List.foldl a2bStep s
      [translateChar (encChar (a / 4)), translateChar (encChar (a % 4 * 16)), '=', '='] =
      { quadPos := 2, leftchar := 0, pads := 2, acc := s.acc ++ [a], done := true } := by
  obtain ⟨hne0, ht0⟩ := translate_enc_spec (a / 4) (by omega)
  obtain ⟨hne1, ht1⟩ := translate_enc_spec (a % 4 * 16) (by omega)
  rcases s with ⟨q, l, p, acc, d⟩
  dsimp only at hd hq ⊢
  subst hd
  subst hq
  simp only [List.foldl_cons, List.foldl_nil]
  rw [a2bStep_data0 l p acc _ _ hne0 ht0]
  rw [a2bStep_data1 _ _ _ _ _ hne1 ht1]
  rw [a2bStep_pad2_first]
  rw [a2bStep_pad2_second]
  rw [(by omega : a / 4 * 4 + a % 4 * 16 / 16 = a)]
  rw [(by omega : a % 4 * 16 % 16 = 0)]

theorem fold_tail2 (s : A2bState) (a b : Nat) (hd : s.done = false) (hq : s.quadPos = 0)
    (ha : a < 256) (hb : b < 256) :
    List.foldl a2bStep s
      [translateChar (encChar (a / 4)), translateChar (encChar (a % 4 * 16 + b / 16)),
        translateChar (encChar (b % 16 * 4)), '='] =
      { quadPos := 3, leftchar := 0, pads := 1, acc := s.acc ++ [a, b], done := true } := by
  obtain ⟨hne0, ht0⟩ := translate_enc_spec (a / 4) (by omega)
  obtain ⟨hne1, ht1⟩ := translate_enc_spec (a % 4 * 16 + b / 16) (by omega)
  obtain ⟨hne2, ht2⟩ := translate_enc_spec (b % 16 * 4) (by omega)
  rcases s with ⟨q, l, p, acc, d⟩
  dsimp only at hd hq ⊢
  subst hd
  subst hq
  simp only [List.foldl_cons, List.foldl_nil]
  rw [a2bStep_data0 l p acc _ _ hne0 ht0]
  rw [a2bStep_data1 _ _ _ _ _ hne1 ht1]
  rw [a2bStep_data2 _ _ _ _ _ hne2 ht2]
  rw [a2bStep_pad3]
  rw [(by omega : a / 4 * 4 + (a % 4 * 16 + b / 16) / 16 = a)]
  rw [(by omega : (a % 4 * 16 + b / 16) % 16 * 16 + b % 16 * 4 / 4 = b)]
  rw [(by omega : b % 16 * 4 % 4 = 0)]
  simp [List.append_assoc]

theorem b64PadLen_add3 (n : Nat) : b64PadLen (n + 3) = b64PadLen n := by
  simp [b64PadLen, Nat.add_mod_right]

theorem b64_decode_body : ∀ (bs : List Nat) (s : A2bState), (∀ x ∈ bs, x < 256) →
    s.done = false → s.quadPos = 0 →
    ((List.foldl a2bStep s
        ((b64body bs ++ List.replicate (b64PadLen bs.length) '=').map translateChar)).done =
          true ∨
      (List.foldl a2bStep s
        ((b64body bs ++ List.replicate (b64PadLen bs.length) '=').map translateChar)).quadPos =
          0) ∧
    (List.foldl a2bStep s
      ((b64body bs ++ List.replicate (b64PadLen bs.length) '=').map translateChar)).acc =
      s.acc ++ bs
  | [], s, _, _, hq => by
    refine ⟨Or.inr ?_, ?_⟩ <;> simp [b64body, b64PadLen, hq]
  | [a], s, hb, hd, hq => by
    have ha : a < 256 := hb a (by simp)
    have hfold := fold_tail1 s a hd hq ha
    simp only [b64body, List.length_cons, List.length_nil]
    rw [show b64PadLen (0 + 1) = 2 from rfl]
    simp only [List.replicate, List.cons_append, List.nil_append, List.map_cons, List.map_nil,
      translateChar_pad]
    rw [hfold]
    exact ⟨Or.inl rfl, rfl⟩
  | [a, b], s, hb, hd, hq => by
    have ha : a < 256 := hb a (by simp)
    have hbb : b < 256 := hb b (by simp)
    have hfold := fold_tail2 s a b hd hq ha hbb
    simp only [b64body, List.length_cons, List.length_nil]
    rw [show b64PadLen (0 + 1 + 1) = 1 from rfl]
    simp only [List.replicate, List.cons_append, List.nil_append, List.map_cons, List.map_nil,
      translateChar_pad]
    rw [hfold]
    exact ⟨Or.inl rfl, rfl⟩
  | a :: b :: c :: rest, s, hb, hd, hq => by
    have ha : a < 256 := hb a (by simp)
    have hbb : b < 256 := hb b (by simp)
    have hcc : c < 256 := hb c (by simp)
    have hrest : ∀ x ∈ rest, x < 256 := fun x hx => hb x (by simp [hx])
    have h4 := fold4_group s a b c hd hq ha hbb hcc
    simp only [List.foldl_cons, List.foldl_nil] at h4
    have hIH := b64_decode_body rest
      { quadPos := 0, leftchar := c / 64, pads := 0, acc := s.acc ++ [a, b, c], done := false }
      hrest rfl rfl
    simp only [b64body, List.length_cons]
    rw [show rest.length + 1 + 1 + 1 = rest.length + 3 from by omega, b64PadLen_add3]
    simp only [List.cons_append, List.map_cons, List.foldl_cons]
    rw [h4]
    refine ⟨hIH.1, ?_⟩
    rw [hIH.2]
    simp

theorem a2b_of_encodeWithPad (bs : List Nat) (hb : ∀ x ∈ bs, x < 256) :
    a2b_base64 ((b64body bs ++ List.replicate (b64PadLen bs.length) '=').map translateChar) =
      some bs := by
  have h := b64_decode_body bs a2bInit hb rfl rfl
  rw [a2b_base64]
  rcases h with ⟨hdq, hacc⟩
  rcases hdq with hd | hq
  · rw [if_pos hd, hacc]
    rfl
  · by_cases hdone : (List.foldl a2bStep a2bInit
        ((b64body bs ++ List.replicate (b64PadLen bs.length) '=').map translateChar)).done = true
    · rw [if_pos hdone, hacc]
      rfl
    · rw [if_neg hdone, if_pos hq, hacc]
      rfl

theorem b64body_mem_alphabet : ∀ (bs : List Nat), (∀ x ∈ bs, x < 256) →
    ∀ ch ∈ b64body bs, ch ∈ urlsafe_alphabet
  | [], _, ch, hch => by simp [b64body] at hch
  | [a], hb, ch, hch => by
    have ha : a < 256 := hb a (by simp)
    rw [b64body] at hch
    simp at hch
    rcases hch with rfl | rfl <;> exact enc_mem_alphabet _ (by omega)
  | [a, b], hb, ch, hch => by
    have ha : a < 256 := hb a (by simp)
    have hbb : b < 256 := hb b (by simp)
    rw [b64body] at hch
    simp at hch
    rcases hch with rfl | rfl | rfl <;> exact enc_mem_alphabet _ (by omega)
  | a :: b :: c :: rest, hb, ch, hch => by
    have ha : a < 256 := hb a (by simp)
    have hbb : b < 256 := hb b (by simp)
    have hcc : c < 256 := hb c (by simp)
    rw [b64body] at hch
    simp only [List.mem_cons] at hch
    rcases hch with rfl | rfl | rfl | rfl | hch
    · exact enc_mem_alphabet _ (by omega)
    · exact enc_mem_alphabet _ (by omega)
    · exact enc_mem_alphabet _ (by omega)
    · exact enc_mem_alphabet _ (by omega)
    · exact b64body_mem_alphabet rest (fun x hx => hb x (by simp [hx])) ch hch

theorem dropWhile_replicate_pad (k : Nat) (cs : List Char) :
    ((List.replicate k '=') ++ cs).dropWhile (· = '=') = cs.dropWhile (· = '=') := by
  induction k with
  | zero => rfl
  | succ k ih =>
    rw [List.replicate_succ, List.cons_append, List.dropWhile_cons]
    simp [ih]

theorem rstripPad_append_pads (cs : List Char) (k : Nat) :
    rstripPad (cs ++ List.replicate k '=') = rstripPad cs := by
  rw [rstripPad, rstripPad, List.reverse_append, List.reverse_replicate,
    dropWhile_replicate_pad]

theorem rstripPad_of_no_pad (cs : List Char) (h : ∀ c ∈ cs, c ≠ '=') : rstripPad cs = cs := by
  rw [rstripPad, dropWhile_eq_self_of_all _ cs.reverse
    (fun c hc => by simpa using h c (List.mem_reverse.mp hc)), List.reverse_reverse]

theorem b64body_length_mod : ∀ bs : List Nat,
    (4 - (b64body bs).length % 4) % 4 = b64PadLen bs.length
  | [] => rfl
  | [_] => rfl
  | [_, _] => rfl
  | a :: b :: c :: rest => by
    rw [b64body]
    simp only [List.length_cons, List.length_append]
    have h := b64body_length_mod rest
    rw [show rest.length + 1 + 1 + 1 = rest.length + 3 from by omega, b64PadLen_add3]
    simp only [b64PadLen] at h ⊢
    omega

/-- C1: the identity codec round-trips every path of Unicode scalar values
(`decode(encode(p)) == p`), and the token uses only URL-safe characters: no
`/` and no `=` padding, so it is usable unescaped as one URL path segment.
(Encoding is a pure function of the path, hence deterministic.) -/
theorem c1_identity_codec_roundtrip (path : List Nat) (hp : ∀ c ∈ path, isScalar c = true) :
    b64url_decode_path (b64url_encode_path path) = some path ∧
    ∀ ch ∈ b64url_encode_path path, ch ≠ '/' ∧ ch ≠ '=' := by
  have hbytes : ∀ b ∈ utf8Encode path, b < 256 := utf8Encode_lt_256 path hp
  have hbody := b64body_mem_alphabet (utf8Encode path) hbytes
  have hnopad : ∀ ch ∈ b64body (utf8Encode path), ch ≠ '=' :=
    fun ch hch => (alphabet_not_slash_pad ch (hbody ch hch)).2
  have henc : b64url_encode_path path = b64body (utf8Encode path) := by
    rw [b64url_encode_path, rstripPad_append_pads, rstripPad_of_no_pad _ hnopad]
  constructor
  · rw [henc, b64url_decode_path]
    rw [b64body_length_mod]
    rw [a2b_of_encodeWithPad (utf8Encode path) hbytes]
    rw [Option.some_bind]
    exact utf8Decode_utf8Encode path hp
  · rw [henc]
    intro ch hch
    exact alphabet_not_slash_pad ch (hbody ch hch)

/-- C1 witness: the path `/tmp` (code points 47, 116, 109, 112). -/
theorem c1_witness :
    b64url_decode_path (b64url_encode_path [47, 116, 109, 112]) = some [47, 116, 109, 112] :=
  (c1_identity_codec_roundtrip [47, 116, 109, 112] (by decide)).1

theorem fold_alpha (cs : List Char) : ∀ s : A2bState, (∀ c ∈ cs, c ∈ urlsafe_alphabet) →
    s.done = false → s.quadPos < 4 →
    (List.foldl a2bStep s (cs.map translateChar)).done = false ∧
    (List.foldl a2bStep s (cs.map translateChar)).quadPos = (s.quadPos + cs.length) % 4 := by
  induction cs with
  | nil =>
    intro s _ hd hq
    refine ⟨hd, ?_⟩
    simp [Nat.mod_eq_of_lt hq]
  | cons c rest ih =>
    intro s h hd hq
    obtain ⟨hne, hsome⟩ := alphabet_table_isSome c (h c (List.mem_cons_self c rest))
    obtain ⟨v, hv⟩ := Option.isSome_iff_exists.mp hsome
    have hrest : ∀ x ∈ rest, x ∈ urlsafe_alphabet := fun x hx => h x (List.mem_cons_of_mem c hx)
    rcases s with ⟨q, l, p, acc, d⟩
    dsimp only at hd hq ⊢
    subst hd
    simp only [List.map_cons, List.foldl_cons, List.length_cons]
    interval_cases q
    · rw [a2bStep_data0 l p acc v _ hne hv]
      have hih := ih ⟨1, v, 0, acc, false⟩ hrest rfl (by dsimp only; omega)
      refine ⟨hih.1, ?_⟩
      rw [hih.2]
      dsimp only
      omega
    · rw [a2bStep_data1 l p acc v _ hne hv]
      have hih := ih ⟨2, v % 16, 0, acc ++ [l * 4 + v / 16], false⟩ hrest rfl (by dsimp only; omega)
      refine ⟨hih.1, ?_⟩
      rw [hih.2]
      dsimp only
      omega
    · rw [a2bStep_data2 l p acc v _ hne hv]
      have hih := ih ⟨3, v % 4, 0, acc ++ [l * 16 + v / 4], false⟩ hrest rfl (by dsimp only; omega)
      refine ⟨hih.1, ?_⟩
      rw [hih.2]
      dsimp only
      omega
    · rw [a2bStep_data3 l p acc v _ hne hv]
      have hih := ih ⟨0, l, 0, acc ++ [l * 64 + v], false⟩ hrest rfl (by dsimp only; omega)
      refine ⟨hih.1, ?_⟩
      rw [hih.2]
      dsimp only
      omega

theorem fold_pads_qp1 (k : Nat) : ∀ s : A2bState, s.done = false → s.quadPos = 1 →
    List.foldl a2bStep s (List.replicate k '=') = s := by
  induction k with
  | zero => intro s _ _; rfl
  | succ k ih =>
    intro s hd hq
    rw [List.replicate_succ, List.foldl_cons, a2bStep_pad_lt2 s hd (by omega)]
    exact ih s hd hq

/-- C9 (amended): characters outside the URL-safe alphabet are discarded by
the decoder, not rejected; what does fail with `InvalidIdentifier` is a
token whose data characters end one past a 4-character group — e.g. any
all-alphabet token of length ≡ 1 (mod 4) — or one whose decoded bytes are
not valid UTF-8 (`"_w"` decodes to the byte `0xFF`). -/
theorem c9_decode_failure_modes :
    (∀ tok : List Char, (∀ c ∈ tok, c ∈ urlsafe_alphabet) → tok.length % 4 = 1 →
      b64url_decode_path tok = none) ∧
    b64url_decode_path ['_', 'w'] = none := by
  constructor
  · intro tok htok hlen
    rw [b64url_decode_path]
    rw [List.map_append]
    rw [show (List.replicate ((4 - tok.length % 4) % 4) '=').map translateChar =
      List.replicate ((4 - tok.length % 4) % 4) '=' from by
        rw [List.map_replicate, translateChar_pad]]
    rw [a2b_base64]
    rw [List.foldl_append]
    have hA := fold_alpha tok a2bInit htok rfl (by decide)
    have hq1 : (List.foldl a2bStep a2bInit (tok.map translateChar)).quadPos = 1 := by
      rw [hA.2, show a2bInit.quadPos = 0 from rfl]
      omega
    rw [fold_pads_qp1 _ _ hA.1 hq1]
    rw [if_neg (by rw [hA.1]; simp), if_neg (by rw [hq1]; omega)]
    rfl
  · decide

/-- C9 witness for the amended claim: the all-alphabet token `AAAAA` (five
data characters, ≡ 1 mod 4) is rejected. -/
theorem c9_witness : b64url_decode_path "AAAAA".toList = none :=
  c9_decode_failure_modes.1 "AAAAA".toList (by decide) (by decide)

/-- C9 counterexample to the claim as stated: the token `YWJj!` contains a
character outside the URL-safe base64 alphabet, yet decoding succeeds — the
`!` is discarded and the path `abc` is returned. -/
theorem c9_counterexample :
    b64url_decode_path "YWJj!".toList = some [97, 98, 99] ∧ '!' ∉ urlsafe_alphabet := by
  constructor <;> decide
